import Mathlib

/-!
# Verification of the paper-trading ledger (`paper_trader.py`) and the
# sentiment error-handling contract (`analysis_engine.py`)

Shallow embedding of the ledger component of the telegram investment bot.
SQLite-backed state (wallet / positions / orders tables) is modelled as an
explicit `TraderState` record; the Python `float` arithmetic is modelled over
`ℚ` (exact rational arithmetic, matching the spec's "decimal" data model);
Python exceptions (`ZeroDivisionError` from an unguarded division,
`NameError` from referencing an undefined variable) are modelled by an
explicit `PyError` value.  Because SQLite statements executed on a connection
are visible to later statements on the same connection even before `commit`,
each operation returns the state as mutated up to the point where it returned
or raised.
-/

namespace PaperTrader

/-- Python exceptions that the ledger code can raise. -/
inductive PyError where
  /-- Raised by `x / 0` on floats, e.g. `quantity = amount_usd / price` with
  `price = 0` in `execute_trade`. -/
  | zeroDivisionError
  /-- Raised by referencing an undefined name, e.g. the stray `return logs`
  at the end of `deposit_cash`. -/
  | nameError
deriving Repr, DecidableEq

/-- Result messages produced by the ledger.  The Python code returns formatted
strings; we model each distinct message as a constructor carrying the data
that is interpolated into it, eliding the presentation-layer float
formatting. -/
inductive Msg where
  /-- Message `"❌ Insufficient Funds"`. -/
  | insufficientFunds
  /-- Message `"❌ Unknown Action"`. -/
  | unknownAction
  /-- Message `f"✅ **BOUGHT** {quantity:.4f} {ticker} @ ${price:.2f}"`. -/
  | bought (quantity : ℚ) (ticker : String) (price : ℚ)
  /-- Message `f"⏳ **QUEUED:** {order_type} @ ${price:.2f}"`. -/
  | queued (order_type : String) (price : ℚ)
  /-- Message `f"🔔 **LIMIT FILLED:** {ticker} @ ${target:.2f}"`. -/
  | limitFilled (ticker : String) (target : ℚ)
  /-- Message `f"🛑 **STOP LOSS HIT:** {ticker} @ ${target:.2f} - CHECK APP!"`. -/
  | stopLossHit (ticker : String) (target : ℚ)
  /-- Message `f"✅ **RESET COMPLETE**\nAccount reset to ${initial_cash:,.2f}"`. -/
  | resetComplete (initial_cash : ℚ)
deriving Repr, DecidableEq

/-- A row of the `positions` table: `(ticker TEXT PRIMARY KEY, amount REAL,
avg_cost REAL)`. -/
structure Position where
  ticker : String
  amount : ℚ
  avg_cost : ℚ
deriving Repr, DecidableEq

/-- A row of the `orders` table: `(id INTEGER PRIMARY KEY, ticker TEXT,
type TEXT, target_price REAL, amount REAL, status TEXT)`.  `amount` stores the
order *quantity* (computed from a dollar amount at queue time). -/
structure Order where
  id : ℕ
  ticker : String
  type : String
  target_price : ℚ
  amount : ℚ
  status : String
deriving Repr, DecidableEq

/-- The whole database state: the singleton `wallet` row, the `positions`
table and the `orders` table.  `nextId` models SQLite's rowid assignment for
the `orders` primary key (next insert gets this id; deleting all rows resets
it to 1). -/
structure TraderState where
  wallet : ℚ
  positions : List Position
  orders : List Order
  nextId : ℕ
deriving Repr, DecidableEq

/-- Query `SELECT amount, avg_cost FROM positions WHERE ticker=?` — at most one row
because `ticker` is the primary key; modelled as the first list entry with
that ticker. -/
def findPosition (ps : List Position) (ticker : String) : Option Position :=
  ps.find? (fun r => decide (r.ticker = ticker))

/-- Source `PaperTrader.get_balance`. -/
def get_balance (s : TraderState) : ℚ := s.wallet

/-- Source `PaperTrader.get_holdings`: `SELECT ... FROM positions WHERE amount > 0`. -/
def get_holdings (s : TraderState) : List (String × ℚ × ℚ) :=
  (s.positions.filter (fun r => decide (0 < r.amount))).map
    (fun r => (r.ticker, r.amount, r.avg_cost))

/-- Source `PaperTrader.get_open_orders`: `SELECT ... FROM orders WHERE status='OPEN'`. -/
def get_open_orders (s : TraderState) : List (String × String × ℚ × ℚ) :=
  (s.orders.filter (fun o => decide (o.status = "OPEN"))).map
    (fun o => (o.ticker, o.type, o.target_price, o.amount))

/-- Source `PaperTrader.execute_trade(ticker, action, price, amount_usd)`.

Mirrors the Python statement order: the insufficient-funds check comes first;
`quantity = amount_usd / price` is computed next (raising
`ZeroDivisionError` when `price = 0`, before any table is touched); then the
wallet `UPDATE` runs, then the position row is looked up and upserted.  When
the weighted-average denominator `total_qty` is zero the division raises
after the wallet update has already been executed on the connection, so the
returned state carries the new balance. -/
def execute_trade (s : TraderState) (ticker action : String)
    (price amount_usd : ℚ) : TraderState × Except PyError Msg :=
  let balance := s.wallet
  if action = "BUY" then
    if balance < amount_usd then (s, .ok .insufficientFunds)
    else if price = 0 then (s, .error .zeroDivisionError)
    else
      let quantity := amount_usd / price
      let new_balance := balance - amount_usd
      match findPosition s.positions ticker with
      | some r =>
        let total_cost := r.amount * r.avg_cost + amount_usd
        let total_qty := r.amount + quantity
        if total_qty = 0 then
          ({ s with wallet := new_balance }, .error .zeroDivisionError)
        else
          let new_avg := total_cost / total_qty
          ({ s with
              wallet := new_balance,
              positions := s.positions.map (fun q =>
                if q.ticker = ticker then
                  { q with amount := total_qty, avg_cost := new_avg }
                else q) },
           .ok (.bought quantity ticker price))
      | none =>
        ({ s with
            wallet := new_balance,
            positions := s.positions ++ [⟨ticker, quantity, price⟩] },
         .ok (.bought quantity ticker price))
  else (s, .ok .unknownAction)

/-- Source `PaperTrader.log_pending_order(ticker, order_type, price, amount_usd)`:
`qty = amount_usd / price if price > 0 else 0`, then inserts an `OPEN` order
row. -/
def log_pending_order (s : TraderState) (ticker order_type : String)
    (price amount_usd : ℚ) : TraderState × Msg :=
  let qty := if 0 < price then amount_usd / price else 0
  ({ s with
      orders := s.orders ++ [⟨s.nextId, ticker, order_type, price, qty, "OPEN"⟩],
      nextId := s.nextId + 1 },
   .queued order_type price)

/-- The body of the `for order_id, order_type, target, qty in orders:` loop in
`check_pending_orders`, iterated over the snapshot of fetched rows.  A
`LIMIT_BUY` whose trigger fires buys `qty * target` dollars at the target
price through `execute_trade` (whose result message is discarded — the order
is marked `FILLED` even if the buy failed for insufficient funds); a
`STOP_LOSS` whose trigger fires is only marked `TRIGGERED`.  An exception
from `execute_trade` aborts the loop, keeping the mutations made so far. -/
def runOrders (ticker : String) (current_price : ℚ) :
    TraderState → List Order → List Msg → TraderState × List Msg × Option PyError
  | s, [], logs => (s, logs, none)
  | s, o :: rest, logs =>
    if o.type = "LIMIT_BUY" ∧ current_price ≤ o.target_price then
      let cost := o.amount * o.target_price
      match execute_trade s ticker ("BUY") o.target_price cost with
      | (s1, .error e) => (s1, logs, some e)
      | (s1, .ok _) =>
        let s2 := { s1 with orders := s1.orders.map (fun q =>
          if q.id = o.id then { q with status := "FILLED" } else q) }
        runOrders ticker current_price s2 rest
          (logs ++ [.limitFilled ticker o.target_price])
    else if o.type = "STOP_LOSS" ∧ current_price ≤ o.target_price then
      let s1 := { s with orders := s.orders.map (fun q =>
        if q.id = o.id then { q with status := "TRIGGERED" } else q) }
      runOrders ticker current_price s1 rest
        (logs ++ [.stopLossHit ticker o.target_price])
    else runOrders ticker current_price s rest logs

/-- Source `PaperTrader.check_pending_orders(ticker, current_price)`.

Fetches the `OPEN` orders on `ticker`, runs the trigger loop over that
snapshot, and — crucially — falls off the end of the function without a
`return` statement: the `logs` list it built is discarded and Python returns
`None`, modelled as `Option.none` in the second component.  (The stray
`return logs` line sits at the end of `deposit_cash` instead.) -/
def check_pending_orders (s : TraderState) (ticker : String)
    (current_price : ℚ) : TraderState × Except PyError (Option (List Msg)) :=
  let matched := s.orders.filter
    (fun o => decide (o.ticker = ticker ∧ o.status = "OPEN"))
  match runOrders ticker current_price s matched [] with
  | (s', _, none) => (s', .ok none)
  | (s', _, some e) => (s', .error e)

/-- Source `PaperTrader.reset_portfolio(initial_cash)`: deletes all positions and
orders, deletes and re-inserts the wallet row.  Emptying the `orders` table
resets SQLite's rowid counter to 1. -/
def reset_portfolio (s : TraderState) (initial_cash : ℚ) :
    TraderState × Msg :=
  let _ := s
  (⟨initial_cash, [], [], 1⟩, .resetComplete initial_cash)

/-- Source `PaperTrader.clear_positions()`: deletes all positions and orders, leaving
the wallet untouched. -/
def clear_positions (s : TraderState) : TraderState :=
  { s with positions := [], orders := [], nextId := 1 }

/-- Source `PaperTrader.deposit_cash(amount)`: reads the balance, writes
`current + amount` back and commits — and then executes `return logs`, where
`logs` is not defined in this function, raising `NameError`.  The wallet
update has already been committed when the exception is raised. -/
def deposit_cash (s : TraderState) (amount : ℚ) :
    TraderState × Except PyError Msg :=
  ({ s with wallet := s.wallet + amount }, .error .nameError)

/-- A sequence of `execute_trade(ticker, "BUY", price, amount_usd)` calls on
one ticker, each buy given as a `(price, amount_usd)` pair; an exception
aborts the sequence. -/
def runBuys (ticker : String) : TraderState → List (ℚ × ℚ) → TraderState × Option PyError
  | s, [] => (s, none)
  | s, (price, amount_usd) :: rest =>
    match execute_trade s ticker ("BUY") price amount_usd with
    | (s', .ok _) => runBuys ticker s' rest
    | (s', .error e) => (s', some e)

/-- Each buy's `amount_usd` is at most the wallet balance at the time of that
call (a successful buy decrements the balance by exactly `amount_usd`). -/
def affordable : ℚ → List (ℚ × ℚ) → Prop
  | _, [] => True
  | b, (_, amount_usd) :: rest => amount_usd ≤ b ∧ affordable (b - amount_usd) rest

/-- Total dollars spent by a sequence of buys. -/
def totalSpend (buys : List (ℚ × ℚ)) : ℚ := (buys.map (fun b => b.2)).sum

/-- Total quantity acquired by a sequence of buys: the sum of the individual
quantities `amount_usd / price`. -/
def totalQty (buys : List (ℚ × ℚ)) : ℚ := (buys.map (fun b => b.2 / b.1)).sum

/-- The stored quantity of `ticker` (0 when no row exists). -/
def positionQty (s : TraderState) (ticker : String) : ℚ :=
  match findPosition s.positions ticker with
  | some r => r.amount
  | none => 0

/-- The stored cost basis of `ticker`: `quantity * avg_cost` (0 when no row
exists). -/
def positionCost (s : TraderState) (ticker : String) : ℚ :=
  match findPosition s.positions ticker with
  | some r => r.amount * r.avg_cost
  | none => 0

/-- The per-row effect of `check_pending_orders(ticker, current_price)` on
the `orders` table when the ticker's open orders are stop losses: an `OPEN`
`STOP_LOSS` row on the ticker whose trigger `current_price <= target_price`
fires is set to `TRIGGERED`; every other row is untouched. -/
def triggeredStop (ticker : String) (current_price : ℚ) (q : Order) : Order :=
  if q.ticker = ticker ∧ q.status = "OPEN" ∧ current_price ≤ q.target_price then
    { q with status := "TRIGGERED" }
  else q

/-- The spec's position-row invariant, as an executable check:
`avg_cost >= 0` and `quantity > 0` (hence no zero-quantity row) for every
stored row. -/
def positions_ok (s : TraderState) : Bool :=
  s.positions.all (fun r =>
    decide (0 ≤ r.avg_cost) && decide (0 < r.amount) && decide (r.amount ≠ 0))

/-- Ledger states reachable from initialization by sequences of ledger
operations whose price and amount arguments are positive (the reachability
hypothesis of the spec's invariant section). -/
inductive Reachable : TraderState → Prop where
  | init (cash : ℚ) : Reachable ⟨cash, [], [], 1⟩
  | trade (s : TraderState) (ticker action : String) (price amount_usd : ℚ) :
      Reachable s → 0 < price → 0 < amount_usd →
      Reachable (execute_trade s ticker action price amount_usd).1
  | logOrder (s : TraderState) (ticker order_type : String) (price amount_usd : ℚ) :
      Reachable s → 0 < price → 0 < amount_usd →
      Reachable (log_pending_order s ticker order_type price amount_usd).1
  | check (s : TraderState) (ticker : String) (current_price : ℚ) :
      Reachable s → Reachable (check_pending_orders s ticker current_price).1
  | reset (s : TraderState) (cash : ℚ) :
      Reachable s → Reachable (reset_portfolio s cash).1
  | clearPos (s : TraderState) :
      Reachable s → Reachable (clear_positions s)
  | deposit (s : TraderState) (amount : ℚ) :
      Reachable s → Reachable (deposit_cash s amount).1

/-- Positivity invariant on position rows (proof-side form of
`positions_ok`). -/
def PosInv (ps : List Position) : Prop := ∀ r ∈ ps, 0 < r.amount ∧ 0 ≤ r.avg_cost

/-- Orders created by `log_pending_order` with positive price and amount have
positive target price and positive quantity; preserved by every operation. -/
def OrdInv (os : List Order) : Prop := ∀ o ∈ os, 0 < o.target_price ∧ 0 < o.amount

end PaperTrader

namespace MoonshotAnalyzer

/-- Outcome of the external Gemini call and the subsequent parsing inside the
`try` block of `MoonshotAnalyzer.get_gemini_sentiment`, abstracting the
network and JSON layers: either `generate_content` raised; or it returned a
falsy (empty/absent) `response.text`; or the cleaned text parsed to a JSON
object carrying `score` and `reason`; or `json.loads`/the key lookups
raised. -/
inductive SentimentOutcome where
  | raised
  | emptyText
  | parsed (score : ℚ) (reason : String)
  | parseFailure
deriving Repr, DecidableEq

/-- Source `MoonshotAnalyzer.get_gemini_sentiment(ticker, asset_type)`, as a function
of the call/parse outcome.  The `except` clause catches any exception from
the call or from parsing and returns `(50, "Neutral (AI Error)")`; a falsy
`response.text` returns `(50, "No Sentiment Data")` from inside the `try`;
a successful parse returns `(data['score'], data['reason'])`. -/
def get_gemini_sentiment : SentimentOutcome → ℚ × String
  | .raised => (50, "Neutral (AI Error)")
  | .emptyText => (50, "No Sentiment Data")
  | .parsed score reason => (score, reason)
  | .parseFailure => (50, "Neutral (AI Error)")

end MoonshotAnalyzer

namespace PaperTrader

/-- C3: a `BUY` with `amount_usd` above the current balance returns the
insufficient-funds message and leaves the whole state (wallet, positions,
orders) unchanged; any action other than `"BUY"` returns the unknown-action
message with no mutation. -/
theorem execute_trade_rejections (s : TraderState) (ticker action : String)
    (price amount_usd : ℚ) :
    (s.wallet < amount_usd →
      execute_trade s ticker ("BUY") price amount_usd = (s, .ok .insufficientFunds)) ∧
    (action ≠ "BUY" →
      execute_trade s ticker action price amount_usd = (s, .ok .unknownAction)) := by
  constructor
  · intro h
    simp [execute_trade, h]
  · intro h
    simp [execute_trade, h]

/-- Witness for C3 at a concrete state. -/
theorem execute_trade_rejections_witness :
    execute_trade ⟨10000, [], [], 1⟩ "X" "BUY" 10 20000
      = (⟨10000, [], [], 1⟩, .ok .insufficientFunds) ∧
    execute_trade ⟨10000, [], [], 1⟩ "X" "SELL" 10 5
      = (⟨10000, [], [], 1⟩, .ok .unknownAction) :=
  ⟨(execute_trade_rejections ⟨10000, [], [], 1⟩ "X" "SELL" 10 20000).1 (by norm_num),
   (execute_trade_rejections ⟨10000, [], [], 1⟩ "X" "SELL" 10 5).2 (by decide)⟩

/-- C6: `reset_portfolio(X)` yields balance `X`, empty holdings and no open
orders, from any starting state; running it again from the resulting state
yields the same state (idempotent terminal reset). -/
theorem reset_portfolio_spec (s : TraderState) (X : ℚ) :
    get_balance (reset_portfolio s X).1 = X ∧
    get_holdings (reset_portfolio s X).1 = [] ∧
    get_open_orders (reset_portfolio s X).1 = [] ∧
    reset_portfolio (reset_portfolio s X).1 X = reset_portfolio s X := by
  simp [reset_portfolio, get_balance, get_holdings, get_open_orders]

/-- C7 (code evaluated at the failing behavior): `clear_positions()` followed
by `deposit_cash(V)` does set the balance to exactly `B + V` with zero
holdings and orders, but `deposit_cash` then raises `NameError` past its
boundary: its final statement is `return logs` and `logs` is not defined in
that function. -/
theorem clear_then_deposit_raises (s : TraderState) (V : ℚ) :
    deposit_cash (clear_positions s) V
      = (⟨s.wallet + V, [], [], 1⟩, .error .nameError) ∧
    get_holdings (deposit_cash (clear_positions s) V).1 = [] ∧
    get_open_orders (deposit_cash (clear_positions s) V).1 = [] := by
  simp [deposit_cash, clear_positions, get_holdings, get_open_orders]

/-- C10: `execute_trade` is not total in `price`: with action `"BUY"`,
`price = 0` and `amount_usd = 100 ≤ balance`, the quantity computation
`amount_usd / price` raises `ZeroDivisionError` (no mutation has happened
yet), whereas `log_pending_order` guards the analogous division with a
`target_price > 0` check and records quantity `0` instead. -/
theorem execute_trade_division_by_zero :
    (100 : ℚ) ≤ (⟨10000, [], [], 1⟩ : TraderState).wallet ∧
    execute_trade ⟨10000, [], [], 1⟩ "X" "BUY" 0 100
      = (⟨10000, [], [], 1⟩, .error .zeroDivisionError) ∧
    log_pending_order ⟨10000, [], [], 1⟩ "X" "LIMIT_BUY" 0 100
      = (⟨10000, [], [⟨1, "X", "LIMIT_BUY", 0, 0, "OPEN"⟩], 2⟩,
         .queued ("LIMIT_BUY") 0) := by
  refine ⟨by norm_num, ?_, ?_⟩
  · norm_num [execute_trade, findPosition]
  · norm_num [log_pending_order]

/-- C4 (code evaluated at the failing input): `check_pending_orders` has no
`return` statement, so even when a trigger fires and a message is appended to
its local `logs` list, the function returns Python `None` and the list is
discarded.  Here a `STOP_LOSS` on `"X"` with target 10 fires at price 5, the
loop builds the one trigger message, and the call still returns `none`. -/
theorem check_pending_orders_returns_none :
    check_pending_orders ⟨10000, [], [⟨1, "X", "STOP_LOSS", 10, 5, "OPEN"⟩], 2⟩ "X" 5
      = (⟨10000, [], [⟨1, "X", "STOP_LOSS", 10, 5, "TRIGGERED"⟩], 2⟩, .ok none) ∧
    (runOrders ("X") 5 ⟨10000, [], [⟨1, "X", "STOP_LOSS", 10, 5, "OPEN"⟩], 2⟩
        [⟨1, "X", "STOP_LOSS", 10, 5, "OPEN"⟩] []).2.1
      = [.stopLossHit ("X") 10] := by
  constructor
  · norm_num [check_pending_orders, runOrders, execute_trade, findPosition]
    rfl
  · norm_num [runOrders]
    rfl

/-- C2 counterexample: an `OPEN` `LIMIT_BUY` on `"X"` queued with dollar
amount `A = 100` (target `T = 10`, stored quantity `A/T = 10`) evaluated at
`current_price = 5 ≤ T` from a wallet holding 0: the order is marked
`FILLED`, but the wallet is not debited and no position is credited, because
the inner `execute_trade` returned "Insufficient Funds" and its result was
ignored. -/
theorem check_pending_orders_limit_buy_counterexample :
    check_pending_orders ⟨0, [], [⟨1, "X", "LIMIT_BUY", 10, 10, "OPEN"⟩], 2⟩ "X" 5
      = (⟨0, [], [⟨1, "X", "LIMIT_BUY", 10, 10, "FILLED"⟩], 2⟩, .ok none) := by
  norm_num [check_pending_orders, runOrders, execute_trade, findPosition]

/-- C9 counterexample: on a falsy model response (`response.text` empty) —
"no usable model output" — the code returns `(50, "No Sentiment Data")`, not
the claimed single neutral default `(50, "Neutral (AI Error)")`. -/
theorem get_gemini_sentiment_empty_counterexample :
    MoonshotAnalyzer.get_gemini_sentiment .emptyText = (50, "No Sentiment Data") ∧
    MoonshotAnalyzer.get_gemini_sentiment .emptyText ≠ (50, "Neutral (AI Error)") := by
  constructor
  · rfl
  · intro h
    simp [MoonshotAnalyzer.get_gemini_sentiment] at h

/-- C9 (amended): any exception — from the model call or from JSON
parsing/key lookup — yields the neutral default `(50, "Neutral (AI Error)")`;
an empty model response yields `(50, "No Sentiment Data")`; a successful
parse returns the score and reason from the model's JSON. -/
theorem get_gemini_sentiment_spec :
    MoonshotAnalyzer.get_gemini_sentiment .raised = (50, "Neutral (AI Error)") ∧
    MoonshotAnalyzer.get_gemini_sentiment .parseFailure = (50, "Neutral (AI Error)") ∧
    MoonshotAnalyzer.get_gemini_sentiment .emptyText = (50, "No Sentiment Data") ∧
    ∀ score reason,
      MoonshotAnalyzer.get_gemini_sentiment (.parsed score reason) = (score, reason) := by
  refine ⟨rfl, rfl, rfl, fun _ _ => rfl⟩

end PaperTrader

namespace PaperTrader

theorem findPosition_some_ticker {ps : List Position} {t : String} {r : Position}
    (h : findPosition ps t = some r) : r.ticker = t := by
  have := List.find?_some h
  simpa using this

theorem findPosition_map_update (ps : List Position) (t : String)
    (f : Position → Position) (hf : ∀ q, (f q).ticker = q.ticker) :
    findPosition (ps.map f) t = (findPosition ps t).map f := by
  unfold findPosition
  have hcomp : ((fun r => decide (r.ticker = t)) ∘ f)
      = (fun r : Position => decide (r.ticker = t)) := by
    funext q
    simp [Function.comp, hf q]
  rw [List.find?_map, hcomp]

theorem findPosition_append_none {ps : List Position} {t : String} (x : Position)
    (h : findPosition ps t = none) :
    findPosition (ps ++ [x]) t = if x.ticker = t then some x else none := by
  unfold findPosition at *
  rw [List.find?_append, h]
  by_cases hx : x.ticker = t <;> simp [hx]

theorem execute_trade_buy_fresh (s : TraderState) (t : String) (p a : ℚ)
    (hfind : findPosition s.positions t = none) (hW : a ≤ s.wallet) (hp : p ≠ 0) :
    execute_trade s t ("BUY") p a =
      ({ s with
          wallet := s.wallet - a
          positions := s.positions ++ [⟨t, a / p, p⟩] },
       .ok (.bought (a / p) t p)) := by
  simp [execute_trade, hfind, not_lt.mpr hW, hp]

theorem execute_trade_buy_existing (s : TraderState) (t : String) (p a : ℚ)
    (r : Position) (hfind : findPosition s.positions t = some r)
    (hW : a ≤ s.wallet) (hp : p ≠ 0) (htq : r.amount + a / p ≠ 0) :
    execute_trade s t ("BUY") p a =
      ({ s with
          wallet := s.wallet - a
          positions := s.positions.map (fun q =>
            if q.ticker = t then
              { q with
                  amount := r.amount + a / p
                  avg_cost := (r.amount * r.avg_cost + a) / (r.amount + a / p) }
            else q) },
       .ok (.bought (a / p) t p)) := by
  simp [execute_trade, hfind, not_lt.mpr hW, hp, htq]

theorem runBuys_accumulates (ticker : String) (buys : List (ℚ × ℚ)) :
    ∀ (s : TraderState) (r : Position),
      findPosition s.positions ticker = some r → 0 < r.amount →
      (∀ b ∈ buys, 0 < b.1 ∧ 0 < b.2) → affordable s.wallet buys →
      (runBuys ticker s buys).2 = none ∧
      ∃ r', findPosition (runBuys ticker s buys).1.positions ticker = some r' ∧
        0 < r'.amount ∧
        r'.amount = r.amount + totalQty buys ∧
        r'.amount * r'.avg_cost = r.amount * r.avg_cost + totalSpend buys := by
  induction buys with
  | nil =>
    intro s r hfind hpos _ _
    refine ⟨rfl, r, hfind, hpos, ?_, ?_⟩ <;> simp [totalQty, totalSpend]
  | cons b rest ih =>
    obtain ⟨p, a⟩ := b
    intro s r hfind hramt hpos haff
    obtain ⟨hp, ha⟩ := hpos (p, a) (List.mem_cons_self _ _)
    have haff' : a ≤ s.wallet ∧ affordable (s.wallet - a) rest := haff
    have hpne : p ≠ 0 := ne_of_gt hp
    have hq : 0 < a / p := div_pos ha hp
    have htq : r.amount + a / p ≠ 0 := ne_of_gt (by linarith)
    have hstep := execute_trade_buy_existing s ticker p a r hfind haff'.1 hpne htq
    set f : Position → Position := fun q =>
      if q.ticker = ticker then
        { q with
            amount := r.amount + a / p
            avg_cost := (r.amount * r.avg_cost + a) / (r.amount + a / p) }
      else q with hfdef
    set s1 : TraderState := { s with
        wallet := s.wallet - a
        positions := s.positions.map f } with hs1
    have hrun : runBuys ticker s ((p, a) :: rest) = runBuys ticker s1 rest := by
      simp only [runBuys, hstep]
    rw [hrun]
    have hfpres : ∀ q, (f q).ticker = q.ticker := by
      intro q
      by_cases hq' : q.ticker = ticker <;> simp [hfdef, hq']
    have hfind1 : findPosition s1.positions ticker = some (f r) := by
      show findPosition (s.positions.map f) ticker = some (f r)
      rw [findPosition_map_update s.positions ticker f hfpres, hfind]
      rfl
    have hrt : r.ticker = ticker := findPosition_some_ticker hfind
    have hfr : f r = { r with
        amount := r.amount + a / p
        avg_cost := (r.amount * r.avg_cost + a) / (r.amount + a / p) } := by
      simp [hfdef, hrt]
    obtain ⟨hnone, r', hfind', hrpos', hamt', hcost'⟩ :=
      ih s1 (f r) hfind1 (by rw [hfr]; simpa using by linarith)
        (fun b hb => hpos b (List.mem_cons_of_mem _ hb)) haff'.2
    refine ⟨hnone, r', hfind', hrpos', ?_, ?_⟩
    · rw [hamt', hfr]
      simp [totalQty]
      ring
    · rw [hcost', hfr]
      have hmc : (r.amount + a / p) * ((r.amount * r.avg_cost + a) / (r.amount + a / p))
          = r.amount * r.avg_cost + a := mul_div_cancel₀ _ htq
      simp only [hmc]
      simp [totalSpend]
      ring

end PaperTrader

namespace PaperTrader

/-- C1: starting with no position on the ticker, any nonempty sequence of
successful `BUY` calls (positive price, positive dollar amount, each amount
at most the balance at the time of the call) leaves a stored position whose
quantity is the sum of the individual quantities `amount_usd / price` and
whose average cost is the dollar-weighted mean of the buy prices — total
dollars spent divided by total quantity, exactly the fixed point of the
recurrence `new_avg = (old_qty*old_avg + spend) / (old_qty + new_qty)`. -/
theorem execute_trade_buy_sequence_weighted_average
    (s : TraderState) (ticker : String) (buys : List (ℚ × ℚ))
    (hne : buys ≠ [])
    (hpos : ∀ b ∈ buys, 0 < b.1 ∧ 0 < b.2)
    (haff : affordable s.wallet buys)
    (hfresh : findPosition s.positions ticker = none) :
    (runBuys ticker s buys).2 = none ∧
    ∃ r, findPosition (runBuys ticker s buys).1.positions ticker = some r ∧
      r.amount = totalQty buys ∧
      r.avg_cost = totalSpend buys / totalQty buys := by
  cases buys with
  | nil => exact absurd rfl hne
  | cons b rest =>
    obtain ⟨p, a⟩ := b
    obtain ⟨hp, ha⟩ := hpos (p, a) (List.mem_cons_self _ _)
    have haff' : a ≤ s.wallet ∧ affordable (s.wallet - a) rest := haff
    have hpne : p ≠ 0 := ne_of_gt hp
    have hstep := execute_trade_buy_fresh s ticker p a hfresh haff'.1 hpne
    set s1 : TraderState := { s with
        wallet := s.wallet - a
        positions := s.positions ++ [⟨ticker, a / p, p⟩] } with hs1
    have hrun : runBuys ticker s ((p, a) :: rest) = runBuys ticker s1 rest := by
      simp only [runBuys, hstep]
    rw [hrun]
    have hfind1 : findPosition s1.positions ticker = some ⟨ticker, a / p, p⟩ := by
      show findPosition (s.positions ++ [⟨ticker, a / p, p⟩]) ticker = _
      rw [findPosition_append_none _ hfresh]
      simp
    obtain ⟨hnone, r', hfind', hrpos', hamt', hcost'⟩ :=
      runBuys_accumulates ticker rest s1 ⟨ticker, a / p, p⟩ hfind1
        (div_pos ha hp) (fun b hb => hpos b (List.mem_cons_of_mem _ hb)) haff'.2
    have hqty : r'.amount = totalQty ((p, a) :: rest) := by
      rw [hamt']
      simp [totalQty]
    have hspend : r'.amount * r'.avg_cost = totalSpend ((p, a) :: rest) := by
      rw [hcost']
      simp [totalSpend, div_mul_cancel₀ a hpne]
    refine ⟨hnone, r', hfind', hqty, ?_⟩
    rw [eq_div_iff (by rw [← hqty]; exact ne_of_gt hrpos')]
    rw [← hqty, mul_comm]
    exact hspend

/-- Witness for C1: the spec's own example — two 1000-dollar buys at prices
10 then 20 from a fresh 10000-dollar wallet give quantity 150 and average
cost 2000/150 = 40/3. -/
theorem execute_trade_buy_sequence_weighted_average_witness :
    affordable (10000 : ℚ) [((10 : ℚ), (1000 : ℚ)), (20, 1000)] ∧
    ((runBuys ("X") ⟨10000, [], [], 1⟩ [(10, 1000), (20, 1000)]).2 = none ∧
      ∃ r, findPosition
          (runBuys ("X") ⟨10000, [], [], 1⟩ [(10, 1000), (20, 1000)]).1.positions ("X")
          = some r ∧
        r.amount = totalQty [(10, 1000), (20, 1000)] ∧
        r.avg_cost = totalSpend [(10, 1000), (20, 1000)]
          / totalQty [(10, 1000), (20, 1000)]) :=
  ⟨by norm_num [affordable],
   execute_trade_buy_sequence_weighted_average ⟨10000, [], [], 1⟩ "X"
     [(10, 1000), (20, 1000)] (List.cons_ne_nil _ _)
     (by norm_num) (by norm_num [affordable]) rfl⟩

end PaperTrader

namespace PaperTrader

theorem runOrders_stops (ticker : String) (current_price : ℚ) :
    ∀ (ms : List Order) (s : TraderState) (logs : List Msg),
      (∀ o ∈ ms, o.type = "STOP_LOSS") →
      (runOrders ticker current_price s ms logs).1
        = { s with orders := s.orders.map (fun q =>
            if ms.any (fun o => o.id == q.id && decide (current_price ≤ o.target_price))
            then { q with status := "TRIGGERED" } else q) } ∧
      (runOrders ticker current_price s ms logs).2.2 = none := by
  intro ms
  induction ms with
  | nil =>
    intro s logs _
    constructor
    · show s = _
      simp
    · rfl
  | cons o rest ih =>
    intro s logs hstops
    have ho : o.type = "STOP_LOSS" := hstops o (List.mem_cons_self _ _)
    have hrest : ∀ q ∈ rest, q.type = "STOP_LOSS" :=
      fun q hq => hstops q (List.mem_cons_of_mem _ hq)
    have hnotlimit : ¬ (o.type = "LIMIT_BUY" ∧ current_price ≤ o.target_price) := by
      rintro ⟨h1, -⟩
      rw [ho] at h1
      exact absurd h1 (by decide)
    by_cases htrig : current_price ≤ o.target_price
    · have hcond : o.type = "STOP_LOSS" ∧ current_price ≤ o.target_price := ⟨ho, htrig⟩
      set s1 : TraderState := { s with orders := s.orders.map (fun q =>
          if q.id = o.id then { q with status := "TRIGGERED" } else q) } with hs1
      have hstep : runOrders ticker current_price s (o :: rest) logs
          = runOrders ticker current_price s1 rest
              (logs ++ [.stopLossHit ticker o.target_price]) := by
        simp only [runOrders, if_neg hnotlimit, if_pos hcond]
      rw [hstep]
      obtain ⟨h1, h2⟩ := ih s1 (logs ++ [.stopLossHit ticker o.target_price]) hrest
      refine ⟨?_, h2⟩
      rw [h1]
      show ({ s1 with orders := s1.orders.map _ } : TraderState) = _
      have : s1.orders.map (fun q =>
            if rest.any (fun o => o.id == q.id && decide (current_price ≤ o.target_price))
            then { q with status := "TRIGGERED" } else q)
          = s.orders.map (fun q =>
            if (o :: rest).any (fun o => o.id == q.id && decide (current_price ≤ o.target_price))
            then { q with status := "TRIGGERED" } else q) := by
        show (s.orders.map _).map _ = _
        rw [List.map_map]
        apply List.map_congr_left
        intro q _
        by_cases hid : q.id = o.id
        · have hany : (o :: rest).any
              (fun o => o.id == q.id && decide (current_price ≤ o.target_price)) = true := by
            simp [List.any_cons, hid, htrig]
          rw [hany]
          simp only [Function.comp, if_pos hid]
          by_cases hr : rest.any (fun o' =>
              o'.id == ({ q with status := "TRIGGERED" } : Order).id
                && decide (current_price ≤ o'.target_price)) = true
          · simp [hr]
          · simp [hr]
        · have hhead : (o.id == q.id && decide (current_price ≤ o.target_price)) = false := by
            simp [Ne.symm hid]
          simp only [Function.comp, if_neg hid, List.any_cons, hhead, Bool.false_or]
      rw [hs1]
      simp only [this]
    · have hnotstop : ¬ (o.type = "STOP_LOSS" ∧ current_price ≤ o.target_price) := by
        rintro ⟨-, h2⟩
        exact htrig h2
      have hstep : runOrders ticker current_price s (o :: rest) logs
          = runOrders ticker current_price s rest logs := by
        simp only [runOrders, if_neg hnotlimit, if_neg hnotstop]
      rw [hstep]
      obtain ⟨h1, h2⟩ := ih s logs hrest
      refine ⟨?_, h2⟩
      rw [h1]
      congr 1
      apply List.map_congr_left
      intro q _
      have hhead : (o.id == q.id && decide (current_price ≤ o.target_price)) = false := by
        simp [htrig]
      simp [List.any_cons, hhead]

end PaperTrader

namespace PaperTrader

/-- C5: when the ticker's `OPEN` orders are all `STOP_LOSS` orders (and order
ids are unique, as the `orders` primary key guarantees), a call to
`check_pending_orders` only rewrites order statuses: an `OPEN` `STOP_LOSS`
row on the ticker whose trigger `current_price <= target_price` fires becomes
`TRIGGERED`, and nothing else changes — the wallet and every position row are
exactly the same before and after (no liquidation occurs), and untriggered
orders stay `OPEN`. -/
theorem check_pending_orders_stop_loss
    (s : TraderState) (ticker : String) (current_price : ℚ)
    (hstops : ∀ o ∈ s.orders, o.ticker = ticker → o.status = "OPEN" →
      o.type = "STOP_LOSS")
    (huniq : s.orders.Pairwise (fun a b => a.id ≠ b.id)) :
    check_pending_orders s ticker current_price
      = ({ s with orders := s.orders.map (triggeredStop ticker current_price) },
         .ok none) := by
  have hsymm : Symmetric (fun a b : Order => a.id ≠ b.id) := by
    intro x y h e
    exact h e.symm
  have hidinj : ∀ a ∈ s.orders, ∀ b ∈ s.orders, a.id = b.id → a = b := by
    intro a ha b hb hid
    by_contra hne
    exact (huniq.forall hsymm ha hb hne) hid
  have hms : ∀ o ∈ s.orders.filter
      (fun o => decide (o.ticker = ticker ∧ o.status = "OPEN")),
      o.type = "STOP_LOSS" := by
    intro o ho
    obtain ⟨hmem, hpred⟩ := List.mem_filter.mp ho
    have hprops := of_decide_eq_true hpred
    exact hstops o hmem hprops.1 hprops.2
  obtain ⟨h1, h2⟩ := runOrders_stops ticker current_price
    (s.orders.filter (fun o => decide (o.ticker = ticker ∧ o.status = "OPEN")))
    s [] hms
  have hpoint : ∀ q ∈ s.orders,
      (if (s.orders.filter
            (fun o => decide (o.ticker = ticker ∧ o.status = "OPEN"))).any
          (fun o => o.id == q.id && decide (current_price ≤ o.target_price))
        then { q with status := "TRIGGERED" } else q)
        = triggeredStop ticker current_price q := by
    intro q hq
    have hiff : ((s.orders.filter
          (fun o => decide (o.ticker = ticker ∧ o.status = "OPEN"))).any
          (fun o => o.id == q.id && decide (current_price ≤ o.target_price)) = true)
        ↔ (q.ticker = ticker ∧ q.status = "OPEN"
            ∧ current_price ≤ q.target_price) := by
      constructor
      · intro h
        obtain ⟨o, ho, hcond⟩ := List.any_eq_true.mp h
        obtain ⟨hmem, hpred⟩ := List.mem_filter.mp ho
        obtain ⟨hid, htar⟩ : (o.id == q.id) = true
            ∧ decide (current_price ≤ o.target_price) = true := by simpa using hcond
        have hoq : o = q := hidinj o hmem q hq (eq_of_beq hid)
        subst hoq
        have hprops := of_decide_eq_true hpred
        exact ⟨hprops.1, hprops.2, of_decide_eq_true htar⟩
      · rintro ⟨hqt, hqs, hqtar⟩
        apply List.any_eq_true.mpr
        refine ⟨q, List.mem_filter.mpr ⟨hq, decide_eq_true ⟨hqt, hqs⟩⟩, ?_⟩
        simp [hqtar]
    unfold triggeredStop
    exact if_congr hiff rfl rfl
  simp only [check_pending_orders]
  rcases hr : runOrders ticker current_price s
    (s.orders.filter (fun o => decide (o.ticker = ticker ∧ o.status = "OPEN")))
    [] with ⟨s', logs', err⟩
  rw [hr] at h1 h2
  simp only at h1 h2
  subst h2
  show (s', Except.ok none) = _
  rw [h1, List.map_congr_left hpoint]

/-- Witness for C5: two open stop losses on `"X"` (targets 10 and 3), an open
limit order on another ticker and a filled limit order on `"X"`, with a
position and cash; evaluated at price 5 only the target-10 stop is
triggered and the wallet and position are untouched. -/
theorem check_pending_orders_stop_loss_witness :
    check_pending_orders
      ⟨9000, [⟨"X", 100, 10⟩],
        [⟨1, "X", "STOP_LOSS", 10, 5, "OPEN"⟩, ⟨2, "X", "STOP_LOSS", 3, 4, "OPEN"⟩,
         ⟨3, "Y", "LIMIT_BUY", 9, 9, "OPEN"⟩, ⟨4, "X", "LIMIT_BUY", 9, 9, "FILLED"⟩],
        5⟩ "X" 5
      = ({ wallet := 9000, positions := [⟨"X", 100, 10⟩],
           orders :=
            [⟨1, "X", "STOP_LOSS", 10, 5, "OPEN"⟩, ⟨2, "X", "STOP_LOSS", 3, 4, "OPEN"⟩,
             ⟨3, "Y", "LIMIT_BUY", 9, 9, "OPEN"⟩,
             ⟨4, "X", "LIMIT_BUY", 9, 9, "FILLED"⟩].map (triggeredStop ("X") 5),
           nextId := 5 }, .ok none) :=
  check_pending_orders_stop_loss _ ("X") 5
    (by intro o ho; fin_cases ho <;> simp_all)
    (by simp [List.pairwise_cons])

end PaperTrader

namespace PaperTrader

/-- C2 (amended): an `OPEN` `LIMIT_BUY` order on the ticker with target
`T > 0`, queued with dollar amount `A > 0` (stored quantity `A/T`), the only
open order on the ticker, with `A` not exceeding the wallet balance when the
order is evaluated (position rows being non-negative, as reachable states
guarantee): evaluated with `current_price <= T` the order is marked `FILLED`,
the wallet is debited by `A`, and the position is credited by quantity `A/T`
at cost `T` (cost basis grows by exactly `A` dollars); evaluated with
`current_price > T` the order stays `OPEN` and nothing at all changes.
Without the funds hypothesis the order is still marked `FILLED` but no debit
or credit happens, because the inner `execute_trade` result is ignored. -/
theorem check_pending_orders_limit_buy
    (s : TraderState) (ticker : String) (current_price T A : ℚ) (o : Order)
    (hT : 0 < T) (hA : 0 < A)
    (hoty : o.type = "LIMIT_BUY") (hotp : o.target_price = T) (hoq : o.amount = A / T)
    (honly : s.orders.filter
      (fun q => decide (q.ticker = ticker ∧ q.status = "OPEN")) = [o])
    (hfunds : A ≤ s.wallet)
    (hposnn : ∀ r ∈ s.positions, 0 ≤ r.amount) :
    (current_price ≤ T →
      (check_pending_orders s ticker current_price).2 = .ok none ∧
      (check_pending_orders s ticker current_price).1.wallet = s.wallet - A ∧
      positionQty (check_pending_orders s ticker current_price).1 ticker
        = positionQty s ticker + A / T ∧
      positionCost (check_pending_orders s ticker current_price).1 ticker
        = positionCost s ticker + A ∧
      (check_pending_orders s ticker current_price).1.orders
        = s.orders.map (fun q =>
            if q.id = o.id then { q with status := "FILLED" } else q) ∧
      (check_pending_orders s ticker current_price).1.nextId = s.nextId) ∧
    (T < current_price →
      check_pending_orders s ticker current_price = (s, .ok none)) := by
  have hTne : T ≠ 0 := ne_of_gt hT
  have hqpos : 0 < A / T := div_pos hA hT
  have hcost2 : o.amount * T = A := by
    rw [hoq]
    exact div_mul_cancel₀ A hTne
  constructor
  · intro hple
    have hcond : o.type = "LIMIT_BUY" ∧ current_price ≤ T := ⟨hoty, hple⟩
    cases hfind : findPosition s.positions ticker with
    | none =>
      have hstep := execute_trade_buy_fresh s ticker T A hfind hfunds hTne
      have heval : check_pending_orders s ticker current_price
          = ({ s with
                wallet := s.wallet - A
                positions := s.positions ++ [⟨ticker, A / T, T⟩]
                orders := s.orders.map (fun q =>
                  if q.id = o.id then { q with status := "FILLED" } else q) },
             .ok none) := by
        simp only [check_pending_orders, honly, runOrders, if_pos hcond, hotp,
          hcost2, hstep]
      rw [heval]
      refine ⟨rfl, rfl, ?_, ?_, rfl, rfl⟩
      · unfold positionQty
        simp only [hfind]
        rw [findPosition_append_none _ hfind]
        simp
      · unfold positionCost
        simp only [hfind]
        rw [findPosition_append_none _ hfind]
        simp [div_mul_cancel₀ A hTne]
    | some r =>
      have hrnn : (0 : ℚ) ≤ r.amount := by
        have hmem : r ∈ s.positions := List.mem_of_find?_eq_some hfind
        exact hposnn r hmem
      have htq : r.amount + A / T ≠ 0 := ne_of_gt (by linarith)
      have hstep := execute_trade_buy_existing s ticker T A r hfind hfunds hTne htq
      have heval : check_pending_orders s ticker current_price
          = ({ s with
                wallet := s.wallet - A
                positions := s.positions.map (fun q =>
                  if q.ticker = ticker then
                    { q with
                        amount := r.amount + A / T
                        avg_cost := (r.amount * r.avg_cost + A) / (r.amount + A / T) }
                  else q)
                orders := s.orders.map (fun q =>
                  if q.id = o.id then { q with status := "FILLED" } else q) },
             .ok none) := by
        simp only [check_pending_orders, honly, runOrders, if_pos hcond, hotp,
          hcost2, hstep]
      rw [heval]
      have hfpres : ∀ q : Position, ((fun q =>
          if q.ticker = ticker then
            { q with
                amount := r.amount + A / T
                avg_cost := (r.amount * r.avg_cost + A) / (r.amount + A / T) }
          else q) q).ticker = q.ticker := by
        intro q
        by_cases hq' : q.ticker = ticker <;> simp [hq']
      refine ⟨rfl, rfl, ?_, ?_, rfl, rfl⟩
      · unfold positionQty
        simp only [hfind]
        rw [findPosition_map_update s.positions ticker _ hfpres, hfind]
        simp [findPosition_some_ticker hfind]
      · unfold positionCost
        simp only [hfind]
        rw [findPosition_map_update s.positions ticker _ hfpres, hfind]
        simp [findPosition_some_ticker hfind]
        rw [mul_div_cancel₀ _ htq]
  · intro hgt
    have hc1 : ¬ (o.type = "LIMIT_BUY" ∧ current_price ≤ o.target_price) := by
      rintro ⟨-, h2⟩
      rw [hotp] at h2
      exact absurd h2 (not_le.mpr hgt)
    have hc2 : ¬ (o.type = "STOP_LOSS" ∧ current_price ≤ o.target_price) := by
      rintro ⟨h1, -⟩
      rw [hoty] at h1
      exact absurd h1 (by decide)
    simp only [check_pending_orders, honly, runOrders, if_neg hc1, if_neg hc2]

end PaperTrader

namespace PaperTrader

/-- Witness for C2: a single open `LIMIT_BUY` on `"X"` with target 10 queued
with 100 dollars (quantity 10), wallet 10000, evaluated at price 5. -/
theorem check_pending_orders_limit_buy_witness :
    (check_pending_orders ⟨10000, [], [⟨1, "X", "LIMIT_BUY", 10, 10, "OPEN"⟩], 2⟩
        "X" 5).2 = .ok none ∧
    (check_pending_orders ⟨10000, [], [⟨1, "X", "LIMIT_BUY", 10, 10, "OPEN"⟩], 2⟩
        "X" 5).1.wallet = (10000 : ℚ) - 100 ∧
    positionQty (check_pending_orders
        ⟨10000, [], [⟨1, "X", "LIMIT_BUY", 10, 10, "OPEN"⟩], 2⟩ "X" 5).1 ("X")
      = positionQty ⟨10000, [], [⟨1, "X", "LIMIT_BUY", 10, 10, "OPEN"⟩], 2⟩ "X"
          + 100 / 10 ∧
    positionCost (check_pending_orders
        ⟨10000, [], [⟨1, "X", "LIMIT_BUY", 10, 10, "OPEN"⟩], 2⟩ "X" 5).1 ("X")
      = positionCost ⟨10000, [], [⟨1, "X", "LIMIT_BUY", 10, 10, "OPEN"⟩], 2⟩ "X"
          + 100 ∧
    (check_pending_orders ⟨10000, [], [⟨1, "X", "LIMIT_BUY", 10, 10, "OPEN"⟩], 2⟩
        "X" 5).1.orders
      = [⟨1, "X", "LIMIT_BUY", 10, 10, "OPEN"⟩].map (fun q : Order =>
          if q.id = 1 then { q with status := "FILLED" } else q) ∧
    (check_pending_orders ⟨10000, [], [⟨1, "X", "LIMIT_BUY", 10, 10, "OPEN"⟩], 2⟩
        "X" 5).1.nextId = 2 :=
  (check_pending_orders_limit_buy
      ⟨10000, [], [⟨1, "X", "LIMIT_BUY", 10, 10, "OPEN"⟩], 2⟩ "X" 5 10 100
      ⟨1, "X", "LIMIT_BUY", 10, 10, "OPEN"⟩
      (by norm_num) (by norm_num) rfl rfl
      (show (10 : ℚ) = 100 / 10 by norm_num) rfl (by norm_num)
      (by simp)).1 (by norm_num)

theorem execute_trade_frame (s : TraderState) (ticker action : String)
    (price amount_usd : ℚ) :
    (execute_trade s ticker action price amount_usd).1.orders = s.orders ∧
    (execute_trade s ticker action price amount_usd).1.nextId = s.nextId := by
  by_cases h1 : action = "BUY"
  · by_cases h2 : s.wallet < amount_usd
    · simp [execute_trade, h1, h2]
    · by_cases h3 : price = 0
      · simp [execute_trade, h1, h2, h3]
      · cases hfind : findPosition s.positions ticker with
        | none => simp [execute_trade, h1, h2, h3, hfind]
        | some r =>
          by_cases h4 : r.amount + amount_usd / price = 0
          · simp [execute_trade, h1, h2, h3, hfind, h4]
          · simp [execute_trade, h1, h2, h3, hfind, h4]
  · simp [execute_trade, h1]

theorem execute_trade_posInv (s : TraderState) (ticker action : String)
    (price amount_usd : ℚ) (hp : 0 < price) (ha : 0 < amount_usd)
    (hinv : PosInv s.positions) :
    PosInv (execute_trade s ticker action price amount_usd).1.positions := by
  have h3 : price ≠ 0 := ne_of_gt hp
  by_cases h1 : action = "BUY"
  · by_cases h2 : s.wallet < amount_usd
    · simpa [execute_trade, h1, h2] using hinv
    · cases hfind : findPosition s.positions ticker with
      | none =>
        have hps : (execute_trade s ticker action price amount_usd).1.positions
            = s.positions ++ [⟨ticker, amount_usd / price, price⟩] := by
          simp [execute_trade, h1, h2, h3, hfind]
        rw [hps]
        intro q hq
        rcases List.mem_append.mp hq with hq1 | hq2
        · exact hinv q hq1
        · have hqe : q = ⟨ticker, amount_usd / price, price⟩ := by simpa using hq2
          rw [hqe]
          exact ⟨div_pos ha hp, le_of_lt hp⟩
      | some r =>
        by_cases h4 : r.amount + amount_usd / price = 0
        · simpa [execute_trade, h1, h2, h3, hfind, h4] using hinv
        · have hps : (execute_trade s ticker action price amount_usd).1.positions
              = s.positions.map (fun q =>
                  if q.ticker = ticker then
                    { q with
                        amount := r.amount + amount_usd / price
                        avg_cost := (r.amount * r.avg_cost + amount_usd)
                          / (r.amount + amount_usd / price) }
                  else q) := by
            simp [execute_trade, h1, h2, h3, hfind, h4]
          rw [hps]
          intro q hq
          obtain ⟨q0, hq0, hq0e⟩ := List.mem_map.mp hq
          have hr : r ∈ s.positions := List.mem_of_find?_eq_some hfind
          obtain ⟨hra, hrc⟩ := hinv r hr
          have hdq : 0 < amount_usd / price := div_pos ha hp
          by_cases hqt : q0.ticker = ticker
          · rw [← hq0e]
            simp only [if_pos hqt]
            constructor
            · show 0 < r.amount + amount_usd / price
              linarith
            · show 0 ≤ (r.amount * r.avg_cost + amount_usd)
                  / (r.amount + amount_usd / price)
              apply le_of_lt
              apply div_pos
              · nlinarith
              · linarith
          · rw [← hq0e]
            simp only [if_neg hqt]
            exact hinv q0 hq0
  · simpa [execute_trade, h1] using hinv

theorem statusMap_ordInv (os : List Order) (i : ℕ) (st : String)
    (hinv : OrdInv os) :
    OrdInv (os.map (fun q => if q.id = i then { q with status := st } else q)) := by
  intro q hq
  obtain ⟨q0, hq0, hq0e⟩ := List.mem_map.mp hq
  by_cases hid : q0.id = i
  · rw [← hq0e, if_pos hid]
    exact hinv q0 hq0
  · rw [← hq0e, if_neg hid]
    exact hinv q0 hq0

theorem runOrders_inv (ticker : String) (current_price : ℚ) :
    ∀ (ms : List Order) (s : TraderState) (logs : List Msg),
      OrdInv ms → PosInv s.positions → OrdInv s.orders →
      PosInv (runOrders ticker current_price s ms logs).1.positions ∧
      OrdInv (runOrders ticker current_price s ms logs).1.orders := by
  intro ms
  induction ms with
  | nil =>
    intro s logs _ hpos hord
    exact ⟨hpos, hord⟩
  | cons o rest ih =>
    intro s logs hms hpos hord
    obtain ⟨hotp, hoq⟩ := hms o (List.mem_cons_self _ _)
    have hrest : OrdInv rest := fun q hq => hms q (List.mem_cons_of_mem _ hq)
    have hcostpos : 0 < o.amount * o.target_price := mul_pos hoq hotp
    by_cases hc1 : o.type = "LIMIT_BUY" ∧ current_price ≤ o.target_price
    · rcases hex : execute_trade s ticker ("BUY") o.target_price
        (o.amount * o.target_price) with ⟨s1, res⟩
      have hpos1 : PosInv s1.positions := by
        have hh := execute_trade_posInv s ticker ("BUY") o.target_price
          (o.amount * o.target_price) hotp hcostpos hpos
        rw [hex] at hh
        exact hh
      have hord1 : OrdInv s1.orders := by
        have hh := (execute_trade_frame s ticker ("BUY") o.target_price
          (o.amount * o.target_price)).1
        rw [hex] at hh
        rw [hh]
        exact hord
      cases res with
      | error e =>
        have hrun : runOrders ticker current_price s (o :: rest) logs
            = (s1, logs, some e) := by
          simp only [runOrders, if_pos hc1, hex]
        rw [hrun]
        exact ⟨hpos1, hord1⟩
      | ok m =>
        have hrun : runOrders ticker current_price s (o :: rest) logs
            = runOrders ticker current_price
                { s1 with orders := s1.orders.map (fun q =>
                    if q.id = o.id then { q with status := "FILLED" } else q) }
                rest (logs ++ [.limitFilled ticker o.target_price]) := by
          simp only [runOrders, if_pos hc1, hex]
        rw [hrun]
        exact ih _ _ hrest hpos1 (statusMap_ordInv s1.orders o.id ("FILLED") hord1)
    · by_cases hc2 : o.type = "STOP_LOSS" ∧ current_price ≤ o.target_price
      · have hrun : runOrders ticker current_price s (o :: rest) logs
            = runOrders ticker current_price
                { s with orders := s.orders.map (fun q =>
                    if q.id = o.id then { q with status := "TRIGGERED" } else q) }
                rest (logs ++ [.stopLossHit ticker o.target_price]) := by
          simp only [runOrders, if_neg hc1, if_pos hc2]
        rw [hrun]
        exact ih _ _ hrest hpos (statusMap_ordInv s.orders o.id ("TRIGGERED") hord)
      · have hrun : runOrders ticker current_price s (o :: rest) logs
            = runOrders ticker current_price s rest logs := by
          simp only [runOrders, if_neg hc1, if_neg hc2]
        rw [hrun]
        exact ih _ _ hrest hpos hord

end PaperTrader

namespace PaperTrader

theorem log_pending_order_inv (s : TraderState) (ticker order_type : String)
    (price amount_usd : ℚ) (hp : 0 < price) (ha : 0 < amount_usd)
    (hord : OrdInv s.orders) :
    (log_pending_order s ticker order_type price amount_usd).1.positions
      = s.positions ∧
    OrdInv (log_pending_order s ticker order_type price amount_usd).1.orders := by
  refine ⟨rfl, ?_⟩
  intro q hq
  have hq' : q ∈ s.orders
      ++ [⟨s.nextId, ticker, order_type, price,
          if 0 < price then amount_usd / price else 0, "OPEN"⟩] := hq
  rcases List.mem_append.mp hq' with hq1 | hq2
  · exact hord q hq1
  · have hqe : q = ⟨s.nextId, ticker, order_type, price,
        if 0 < price then amount_usd / price else 0, "OPEN"⟩ := by simpa using hq2
    rw [hqe]
    exact ⟨hp, by simp [if_pos hp, div_pos ha hp]⟩

theorem reachable_inv (s : TraderState) (h : Reachable s) :
    PosInv s.positions ∧ OrdInv s.orders := by
  induction h with
  | init cash =>
    exact ⟨fun r hr => absurd hr (List.not_mem_nil r),
      fun o ho => absurd ho (List.not_mem_nil o)⟩
  | trade s ticker action price amount_usd _ hp ha ih =>
    refine ⟨execute_trade_posInv s ticker action price amount_usd hp ha ih.1, ?_⟩
    rw [(execute_trade_frame s ticker action price amount_usd).1]
    exact ih.2
  | logOrder s ticker order_type price amount_usd _ hp ha ih =>
    obtain ⟨h1, h2⟩ := log_pending_order_inv s ticker order_type price amount_usd
      hp ha ih.2
    rw [h1]
    exact ⟨ih.1, h2⟩
  | check s ticker current_price _ ih =>
    have hms : OrdInv (s.orders.filter
        (fun o => decide (o.ticker = ticker ∧ o.status = "OPEN"))) :=
      fun o ho => ih.2 o (List.mem_filter.mp ho).1
    obtain ⟨h1, h2⟩ := runOrders_inv ticker current_price
      (s.orders.filter (fun o => decide (o.ticker = ticker ∧ o.status = "OPEN")))
      s [] hms ih.1 ih.2
    rcases hr : runOrders ticker current_price s
      (s.orders.filter (fun o => decide (o.ticker = ticker ∧ o.status = "OPEN")))
      [] with ⟨s', logs', err⟩
    rw [hr] at h1 h2
    have hck : (check_pending_orders s ticker current_price).1 = s' := by
      simp only [check_pending_orders, hr]
      cases err <;> rfl
    rw [hck]
    exact ⟨h1, h2⟩
  | reset s cash _ _ =>
    exact ⟨fun r hr => absurd hr (List.not_mem_nil r),
      fun o ho => absurd ho (List.not_mem_nil o)⟩
  | clearPos s _ _ =>
    exact ⟨fun r hr => absurd hr (List.not_mem_nil r),
      fun o ho => absurd ho (List.not_mem_nil o)⟩
  | deposit s amount _ ih => exact ih

/-- C8: in every reachable ledger state (any sequence of ledger operations
from initialization with positive price and amount arguments), every stored
position row has `avg_cost >= 0` and `quantity > 0`, and no row has zero
quantity — liquidation (`reset_portfolio` / `clear_positions`) deletes rows
rather than zeroing them. -/
theorem reachable_positions_ok (s : TraderState) (h : Reachable s) :
    positions_ok s = true := by
  obtain ⟨hpos, -⟩ := reachable_inv s h
  apply List.all_eq_true.mpr
  intro r hr
  obtain ⟨h1, h2⟩ := hpos r hr
  simp [positions_ok, h1, h2, ne_of_gt h1]

/-- Witness for C8: the state reached by one 1000-dollar buy at price 10 from
a fresh 10000-dollar wallet satisfies the position-row invariant. -/
theorem reachable_positions_ok_witness :
    positions_ok (execute_trade ⟨10000, [], [], 1⟩ "X" "BUY" 10 1000).1 = true :=
  reachable_positions_ok _
    (Reachable.trade ⟨10000, [], [], 1⟩ "X" "BUY" 10 1000
      (Reachable.init 10000) (by norm_num) (by norm_num))

end PaperTrader
